import Mathlib

/-!
Verification of the DayTracker event-ingestion subsystem
(`scripts/processors/project_mapper.py`, `scripts/collectors/file_watcher.py`,
`scripts/collectors/browser_history.py`, `scripts/collectors/git_commit.py`,
`scripts/collectors/window_poller.py`).

The Python code is shallowly embedded: pure helpers become Lean functions,
SQLite tables become lists of rows, the in-memory debounce dict becomes a
finite map, clock readings are exact rationals, and Python `int()`
truncation is modelled explicitly.  Paths follow `pathlib` POSIX semantics
(the flavour under which the specified scenarios are stated): a pure path
is its list of components, duplicate separators and `.` segments are
dropped, and an absolute path carries a leading `/` component.  String
primitives are re-implemented structurally over `List Char` so that every
definition evaluates inside the kernel.
-/

namespace DayTracker

/-! ## Character-list string primitives -/

/-- Split a character list on a separator character (`str.split(sep)`
semantics: `n` separators produce `n + 1` groups, possibly empty). -/
def splitChar (sep : Char) : List Char → List (List Char)
  | [] => [[]]
  | c :: rest =>
      let r := splitChar sep rest
      if c = sep then [] :: r
      else
        match r with
        | [] => [[c]]
        | g :: gs => (c :: g) :: gs

/-- Contiguous-substring test (`needle in hay` on Python strings). -/
def strContains (hay needle : String) : Bool :=
  hay.data.tails.any (fun t => needle.data.isPrefixOf t)

/-- `str.lower()` (ASCII case mapping suffices for the data in scope). -/
def lowerStr (s : String) : String := String.mk (s.data.map Char.toLower)

/-- `str.strip()`: drop leading and trailing whitespace. -/
def stripStr (s : String) : String :=
  String.mk
    (((s.data.dropWhile Char.isWhitespace).reverse.dropWhile
        Char.isWhitespace).reverse)

/-- Join a list of strings with a separator (`sep.join(parts)`). -/
def joinSep (sep : String) : List String → String
  | [] => ""
  | [x] => x
  | x :: y :: rest => x ++ sep ++ joinSep sep (y :: rest)

/-! ## Pure-path model (`pathlib` POSIX flavour) -/

/-- Proper components of a path string: split on `/`, dropping empty and
`.` segments, as `PurePosixPath` does. -/
def pySegments (s : String) : List String :=
  ((splitChar '/' s.data).map String.mk).filter
    (fun t => !(t == "") && !(t == "."))

/-- Whether the path string is absolute (POSIX: starts with `/`). -/
def pyIsAbs (s : String) : Bool := ['/'].isPrefixOf s.data

/-- `PurePosixPath(s).parts`: the anchor `/` (when absolute) followed by
the proper segments. -/
def pyParts (s : String) : List String :=
  if pyIsAbs s then "/" :: pySegments s else pySegments s

/-- `str(PurePosixPath(s))`: the normalised rendering of the path. -/
def pyStr (s : String) : String :=
  if pyIsAbs s then "/" ++ joinSep "/" (pySegments s)
  else if pySegments s = [] then "." else joinSep "/" (pySegments s)

/-- `PurePosixPath(s).name`: the final proper segment, or `""`. -/
def pyName (s : String) : String := (pySegments s).getLastD ""

/-- `project_mapper._normalise`: replace every backslash by a forward
slash before constructing the `Path`. -/
def normalise (s : String) : String :=
  String.mk (s.data.map (fun c => if c = '\\' then '/' else c))

/-- `Path.relative_to` on component lists; `none` models the
`ValueError`.  A root with no components (such as `.`) is compatible only
with a relative path; otherwise the root's components must be a prefix of
the path's components. -/
def relativeTo (pParts rParts : List String) : Option (List String) :=
  if rParts = [] then
    if pParts.head? = some "/" then none else some pParts
  else if rParts.isPrefixOf pParts then some (pParts.drop rParts.length)
  else none

/-- One iteration body of `map_path_to_project`: try `relative_to`
directly, then retry on the lower-cased renderings of both paths (the
case-insensitive fallback for Windows roots). -/
def tryRelative (p r : String) : Option (List String) :=
  match relativeTo (pyParts (normalise p)) (pyParts (normalise r)) with
  | some rel => some rel
  | none =>
      relativeTo ((pyParts (normalise p)).map lowerStr)
        ((pyParts (normalise r)).map lowerStr)

/-- Loop of `map_path_to_project`: the first root whose relative path has
a first component wins; an empty relative path falls through to the next
root; a root that does not match is skipped. -/
def mapGo (filePath : String) : List String → Option String
  | [] => none
  | r :: rest =>
      match tryRelative filePath r with
      | some (c :: _) => some c
      | some [] => mapGo filePath rest
      | none => mapGo filePath rest

/-- `project_mapper.map_path_to_project` with an explicit list of watch
roots (the `None` default merely loads the configured list). -/
def map_path_to_project (filePath : String) (watchRoots : List String) :
    Option String :=
  mapGo filePath watchRoots

/-! ## `fnmatch` glob matching

`fnmatch.fnmatch` with POSIX case handling: `*` matches any sequence, `?`
any single character, `[...]` a character class (`!` negates; a `]` right
after the opening is literal; `a-b` is a range; an unterminated `[` is a
literal bracket).  The pattern is first tokenised, then run against the
whole candidate string. -/

/-- A glob pattern token. -/
inductive GlobTok where
  | star : GlobTok
  | anyc : GlobTok
  | lit (c : Char) : GlobTok
  | cls (neg : Bool) (ranges : List (Char × Char)) : GlobTok
  deriving DecidableEq

/-- Index of the closing `]` of a character class, given the characters
following the opening `[` (an initial `!` and an immediately following
`]` do not close the class). -/
def classEnd (ps : List Char) : Option ℕ :=
  let s1 : ℕ := if ps.head? = some '!' then 1 else 0
  let s2 : ℕ := if ps[s1]? = some ']' then s1 + 1 else s1
  match (ps.drop s2).findIdx? (fun c => c = ']') with
  | some k => some (s2 + k)
  | none => none

/-- Parse a class body into `(lo, hi)` ranges; a lone character is the
degenerate range on itself, and a trailing `-` is literal. -/
def parseRanges : List Char → List (Char × Char)
  | [] => []
  | a :: '-' :: b :: rest => (a, b) :: parseRanges rest
  | a :: rest => (a, a) :: parseRanges rest

/-- Tokenise a glob pattern; the fuel argument (any value exceeding the
pattern length) makes the recursion structural so that the definition
evaluates inside the kernel. -/
def tokenizeF : ℕ → List Char → List GlobTok
  | 0, _ => []
  | _ + 1, [] => []
  | f + 1, '*' :: ps => .star :: tokenizeF f ps
  | f + 1, '?' :: ps => .anyc :: tokenizeF f ps
  | f + 1, '[' :: ps =>
      match classEnd ps with
      | some j =>
          let neg := ps.head? = some '!'
          let body := if neg then (ps.take j).drop 1 else ps.take j
          .cls neg (parseRanges body) :: tokenizeF f (ps.drop (j + 1))
      | none => .lit '[' :: tokenizeF f ps
  | f + 1, c :: ps => .lit c :: tokenizeF f ps

/-- Tokenise a glob pattern. -/
def tokenize (l : List Char) : List GlobTok := tokenizeF (l.length + 1) l

/-- Character-class membership. -/
def inClass (ranges : List (Char × Char)) (c : Char) : Bool :=
  ranges.any (fun r => r.1 ≤ c && c ≤ r.2)

/-- Run a tokenised glob pattern against a whole string; the fuel (any
value exceeding pattern length plus string length) makes the recursion
structural. -/
def globRunF : ℕ → List GlobTok → List Char → Bool
  | 0, _, _ => false
  | _ + 1, [], [] => true
  | _ + 1, [], _ :: _ => false
  | f + 1, .star :: ts, s =>
      globRunF f ts s ||
        (match s with
         | [] => false
         | _ :: s2 => globRunF f (.star :: ts) s2)
  | f + 1, .anyc :: ts, s =>
      match s with
      | [] => false
      | _ :: s2 => globRunF f ts s2
  | f + 1, .lit c :: ts, s =>
      match s with
      | [] => false
      | d :: s2 => d = c && globRunF f ts s2
  | f + 1, .cls neg rs :: ts, s =>
      match s with
      | [] => false
      | d :: s2 => (inClass rs d != neg) && globRunF f ts s2

/-- Run a tokenised glob pattern against a whole string. -/
def globRun (ts : List GlobTok) (s : List Char) : Bool :=
  globRunF (ts.length + s.length + 1) ts s

/-- `fnmatch.fnmatch(name, pattern)` (POSIX `normcase` is the identity). -/
def fnmatch (name pattern : String) : Bool :=
  globRun (tokenize pattern.data) name.data

/-! ## Exclusion filter (`file_watcher._should_exclude`) -/

/-- `file_watcher._should_exclude`: a path is excluded when any exclusion
pattern matches one of its components, its full rendered path, or its
basename.  The early-`return` loops of the source collapse to `any`. -/
def should_exclude (path : String) (excludePatterns : List String) : Bool :=
  excludePatterns.any (fun pat =>
    (pyParts path).any (fun part => fnmatch part pat) ||
      fnmatch (pyStr path) pat || fnmatch (pyName path) pat)

/-! ## Debounce filter (`file_watcher._is_debounced`)

The module-level `_debounce_cache` dict is a finite map from path to the
last accepted `time.monotonic()` reading; the mutex makes each call
atomic, so a call is a pure state transition on the map. -/

/-- The debounce cache: path to last-accepted monotonic time. -/
def DebCache : Type := String → Option ℚ

/-- `DEBOUNCE_SECONDS`. -/
def DEBOUNCE_SECONDS : ℚ := 2

/-- Dict update `_debounce_cache[path] = now`. -/
def cacheSet (c : DebCache) (k : String) (v : ℚ) : DebCache :=
  fun k2 => if k2 = k then some v else c k2

/-- The prune loop: delete every entry strictly older than the cutoff. -/
def cachePrune (c : DebCache) (cutoff : ℚ) : DebCache :=
  fun k =>
    match c k with
    | some v => if v < cutoff then none else some v
    | none => none

/-- `file_watcher._is_debounced` as a state transition: the returned Bool
is the function's return value (`true` = suppress), the returned cache is
the module state afterwards.  Note the prune runs only on the accepting
branch of the source. -/
def is_debounced (c : DebCache) (path : String) (now : ℚ) :
    Bool × DebCache :=
  let last := (c path).getD 0
  if now - last < DEBOUNCE_SECONDS then (true, c)
  else (false, cachePrune (cacheSet c path now) (now - 60))

/-! ## Browser epoch conversion (`browser_history`) -/

/-- Python `int()`: truncation toward zero. -/
def pyInt (q : ℚ) : ℤ := if 0 ≤ q then ⌊q⌋ else ⌈q⌉

/-- `CHROME_EPOCH_OFFSET_US`: microseconds from 1601-01-01 to 1970-01-01. -/
def CHROME_EPOCH_OFFSET_US : ℤ := 11644473600 * 1000000

/-- `browser_history._chrome_ts_to_unix`. -/
def chrome_ts_to_unix (chromeTs : ℤ) : ℚ :=
  ((chromeTs : ℚ) - (CHROME_EPOCH_OFFSET_US : ℚ)) / 1000000

/-- `browser_history._unix_to_chrome_ts`. -/
def unix_to_chrome_ts (unixTs : ℚ) : ℤ :=
  pyInt (unixTs * 1000000 + (CHROME_EPOCH_OFFSET_US : ℚ))

/-! ### IEEE-754 binary64 model of the epoch conversion

The two conversions above idealise the arithmetic; the source computes in
Python floats (IEEE-754 binary64), whose roundings matter at the
magnitudes involved (the Chrome-epoch value sits near `1.3e16`, where one
double ulp is 2 microseconds).  `fl` is round-to-nearest, ties-to-even at
53 significant bits with unbounded exponent range — value-faithful to
binary64 everywhere away from overflow and subnormals, both far outside
the magnitudes these conversions see. -/

/-- Round a rational to the nearest integer, ties to even (the IEEE-754
default rounding of a scaled significand). -/
def rtne (y : ℚ) : ℤ :=
  if y - ⌊y⌋ < 1 / 2 then ⌊y⌋
  else if 1 / 2 < y - ⌊y⌋ then ⌊y⌋ + 1
  else if Even ⌊y⌋ then ⌊y⌋ else ⌊y⌋ + 1

/-- Binary64 rounding of a positive rational: scale into `[2^52, 2^53)`,
round the significand to the nearest integer (ties to even), scale back. -/
def flPos (a : ℚ) : ℚ :=
  (rtne (a / 2 ^ (Int.log 2 a - 52)) : ℚ) * 2 ^ (Int.log 2 a - 52)

/-- Binary64 rounding (round to nearest, ties to even; rounding is
symmetric about zero). -/
def fl (x : ℚ) : ℚ :=
  if x = 0 then 0 else if x < 0 then -flPos (-x) else flPos x

/-- `_unix_to_chrome_ts` as the source actually computes it: `unixTs` (a
double) times the int `1_000_000` rounds once, adding the int offset
(exactly representable, so promoted without error) rounds again, and
`int()` truncates the resulting double exactly. -/
def unix_to_chrome_ts_fp (unixTs : ℚ) : ℤ :=
  pyInt (fl (fl (unixTs * 1000000) + (CHROME_EPOCH_OFFSET_US : ℚ)))

/-- `_chrome_ts_to_unix` as the source actually computes it: the int
subtraction is exact and Python true division of ints produces the
correctly rounded double of the exact quotient. -/
def chrome_ts_to_unix_fp (chromeTs : ℤ) : ℚ :=
  fl (((chromeTs : ℚ) - (CHROME_EPOCH_OFFSET_US : ℚ)) / 1000000)

/-! ## Project store (`project_mapper.get_or_create_project`)

The `projects` table is a list of rows in rowid order; SQLite assigns a
fresh row the successor of the largest existing id. -/

/-- A row of the `projects` table. -/
structure Project where
  id : ℕ
  name : String
  path : String
  status : String
  createdAt : String
  deriving DecidableEq

/-- `lastrowid` for a fresh insert: one more than the largest id. -/
def nextId (s : List Project) : ℕ :=
  (s.map Project.id).foldr max 0 + 1

/-- Rows of the table bearing a given name. -/
def countName (s : List Project) (name : String) : ℕ :=
  (s.filter (fun p => p.name = name)).length

/-- `project_mapper.get_or_create_project` as a transition on the table:
`SELECT id FROM projects WHERE name = ?`, and on a miss
`INSERT INTO projects (name, path, status, created_at)` with status
`active`, returning `lastrowid`. -/
def get_or_create_project (name path now : String) (s : List Project) :
    ℕ × List Project :=
  match s.find? (fun p => p.name = name) with
  | some p => (p.id, s)
  | none =>
      let newId := nextId s
      (newId, s ++ [⟨newId, name, path, "active", now⟩])

/-! ## Browser history sync (`browser_history`)

A history entry is one row of the joined `urls`/`visits` query; the
activity log is modelled by its `browser`-typed rows, keyed exactly as the
duplicate check keys them: `(timestamp, data)` where `data` is the URL and
the timestamp is the visit time (distinct rational visit times render as
distinct ISO strings, so the rational is kept as the key).  The single
`time.time()` reading per cycle stands for the (millisecond-apart) clock
reads of one cycle. -/

/-- One row of the Chrome `visits` join: URL and native timestamp. -/
structure HistEntry where
  url : String
  chromeTs : ℤ
  deriving DecidableEq

/-- The Unix visit time carried by an entry (`_chrome_ts_to_unix`). -/
def entryUnix (e : HistEntry) : ℚ := chrome_ts_to_unix e.chromeTs

/-- A `browser`-typed `activity_log` row, reduced to its dedup key. -/
structure BrowserRow where
  timestamp : ℚ
  url : String
  deriving DecidableEq

/-- The row inserted for an entry (`timestamp = visit_time`, `data = url`). -/
def rowKey (e : HistEntry) : BrowserRow := ⟨entryUnix e, e.url⟩

/-- `browser_history.get_chrome_history`: rows at or after the cutoff
`now - hours*3600` (converted to the native epoch), skipping
non-positive native timestamps.  Result order (`DESC`) is irrelevant to
every property below and is not modelled. -/
def get_chrome_history (hist : List HistEntry) (hours : ℤ) (now : ℚ) :
    List HistEntry :=
  let cutoffChrome := unix_to_chrome_ts (now - hours * 3600)
  hist.filter (fun e =>
    decide (cutoffChrome ≤ e.chromeTs) && decide (0 < e.chromeTs))

/-- `browser_history.sync_to_db` (non-dry-run): for each entry in order,
skip it when a row with its `(timestamp, url)` key exists, otherwise
insert; returns the number inserted together with the new table. -/
def sync_to_db : List HistEntry → List BrowserRow → ℕ × List BrowserRow
  | [], db => (0, db)
  | e :: rest, db =>
      if rowKey e ∈ db then sync_to_db rest db
      else
        let r := sync_to_db rest (db ++ [rowKey e])
        (r.1 + 1, r.2)

/-- Python `max` over the visit times of a non-empty entry list (`0` is
never reached on the paths that use it). -/
def qMax : List ℚ → ℚ
  | [] => 0
  | x :: xs => xs.foldl max x

/-- Result of one `sync_since_last` cycle: the returned insert count, the
persisted cursor afterwards, and the activity table afterwards. -/
structure SyncResult where
  count : ℕ
  lastSync : ℚ
  db : List BrowserRow
  deriving DecidableEq

/-- `effective_hours = max(1, int((now - cutoff_unix)/3600) + 1)` where
`cutoff_unix = max(last_sync_unix, now - hours*3600)`. -/
def effectiveHours (lastSync : ℚ) (hours : ℤ) (now : ℚ) : ℤ :=
  max 1 (pyInt ((now - max lastSync (now - hours * 3600)) / 3600) + 1)

/-- The Unix-time lower edge of the window `sync_since_last` actually
reads: `get_chrome_history` cuts at `now - effective_hours*3600`. -/
def gval (lastSync : ℚ) (hours : ℤ) (now : ℚ) : ℚ :=
  now - (effectiveHours lastSync hours now : ℚ) * 3600

/-- The entry list one `sync_since_last` cycle feeds to `sync_to_db`:
the fetched window, restricted to entries strictly newer than a positive
cursor. -/
def runEntries (hist : List HistEntry) (lastSync : ℚ) (hours : ℤ)
    (now : ℚ) : List HistEntry :=
  let entries := get_chrome_history hist (effectiveHours lastSync hours now) now
  if 0 < lastSync then entries.filter (fun e => decide (lastSync < entryUnix e))
  else entries

/-- `browser_history.sync_since_last` (non-dry-run): fetch the recent
window, keep entries strictly newer than a positive cursor, insert the
survivors, and advance the cursor to the newest visit time only when at
least one row was reported inserted. -/
def sync_since_last (hist : List HistEntry) (lastSync : ℚ)
    (db : List BrowserRow) (hours : ℤ) (now : ℚ) : SyncResult :=
  let entries := runEntries hist lastSync hours now
  if entries = [] then ⟨0, lastSync, db⟩
  else
    let r := sync_to_db entries db
    let newLast := if 0 < r.1 then qMax (entries.map entryUnix) else lastSync
    ⟨r.1, newLast, r.2⟩

/-! ### Failure model for the batch insert

`sync_to_db` runs its inserts inside `with sqlite3.connect(...) as conn`;
when an insert raises `sqlite3.Error`, the connection context manager
rolls the whole transaction back (nothing is committed), the outer
`except` swallows the error, and the function still returns the value the
`inserted` counter had reached.  `failAt = some n` injects the error on
the insert executed after `n` successful ones. -/

/-- The insert loop with an injected failure point: returns the counter
value, the would-be table, and whether the error fired. -/
def syncInsertLoop :
    List HistEntry → List BrowserRow → ℕ → Option ℕ →
      ℕ × List BrowserRow × Bool
  | [], db, n, _ => (n, db, false)
  | e :: rest, db, n, failAt =>
      if rowKey e ∈ db then syncInsertLoop rest db n failAt
      else if failAt = some n then (n, db, true)
      else syncInsertLoop rest (db ++ [rowKey e]) (n + 1) failAt

/-- `sync_to_db` under the failure model: on an error the transaction is
rolled back (table unchanged) but the partial counter is still returned. -/
def sync_to_db_faulty (entries : List HistEntry) (db : List BrowserRow)
    (failAt : Option ℕ) : ℕ × List BrowserRow :=
  match syncInsertLoop entries db 0 failAt with
  | (n, db2, failed) => if failed then (n, db) else (n, db2)

/-- `sync_since_last` under the failure model. -/
def sync_since_last_faulty (hist : List HistEntry) (lastSync : ℚ)
    (db : List BrowserRow) (hours : ℤ) (now : ℚ) (failAt : Option ℕ) :
    SyncResult :=
  let entries := runEntries hist lastSync hours now
  if entries = [] then ⟨0, lastSync, db⟩
  else
    let r := sync_to_db_faulty entries db failAt
    let newLast := if 0 < r.1 then qMax (entries.map entryUnix) else lastSync
    ⟨r.1, newLast, r.2⟩

/-! ## Commit collector (`git_commit.run` / `git_commit.main`)

The filesystem and the `git` subprocesses are abstracted into the inputs
`run` consumes: whether `repo/.git` exists, the parsed latest commit (or
`none` when the `git log` helper raises `RuntimeError`), the changed-file
list (or `none` when `diff-tree` raises), whether the worklog database
file exists, and whether its writes raise `sqlite3.Error`. -/

/-- Metadata of the latest commit (`get_latest_commit`). -/
structure CommitMeta where
  hash : String
  shortHash : String
  subject : String
  author : String
  timestamp : String
  deriving DecidableEq

/-- The environment one `git_commit` invocation observes. -/
structure GitEnv where
  hasGitDir : Bool
  latestCommit : Option CommitMeta
  changedFiles : Option (List String)
  dbExists : Bool
  insertFails : Bool
  deriving DecidableEq

/-- A row written by the commit collector. -/
inductive GitWrite where
  | activity (summary : String) : GitWrite
  | fileEvent (path : String) : GitWrite
  deriving DecidableEq

/-- `git_commit.record_commit` (non-dry-run): early return when the
database file is missing; one `git_commit` activity row plus one
`modified` file event per changed file, all rolled back (and the error
swallowed) when an insert raises. -/
def record_commit (repoPath : String) (commit : CommitMeta)
    (changedFiles : List String) (dbExists insertFails : Bool) :
    List GitWrite :=
  if !dbExists then []
  else if insertFails then []
  else
    .activity ("git commit [" ++ commit.shortHash ++ "] " ++ commit.subject)
      :: changedFiles.map (fun f => .fileEvent (repoPath ++ "/" ++ f))

/-- `git_commit.run`: every failure path of the source prints to stderr
and returns normally, so the result is `Except.ok` with the performed
writes; `Except.error` would model an exception escaping `run`. -/
def git_commit_run (repoPath : String) (env : GitEnv) :
    Except String (List GitWrite) :=
  if !env.hasGitDir then .ok []
  else
    match env.latestCommit with
    | none => .ok []
    | some commit =>
        let files := env.changedFiles.getD []
        .ok (record_commit repoPath commit files env.dbExists env.insertFails)

/-- `git_commit.main` (with `--repo repoPath`): exit code 1 exactly when
`run` raises, else exit code 0; paired with the writes performed. -/
def git_commit_main (repoPath : String) (env : GitEnv) :
    ℕ × List GitWrite :=
  match git_commit_run repoPath env with
  | .ok writes => (0, writes)
  | .error _ => (1, [])

/-! ## Window poller (`window_poller`)

`get_active_window_info` is modelled as a function of the raw title and
application name reported by `pywinctl` for the active window (the
`getAppName` success path).  The VSCode title parse approximates the
title regex for the conventional single-space `" - "` separated titles;
the claims below never depend on its output. -/

/-- `NON_WORK_APPS` (a Python set; membership only, order immaterial). -/
def NON_WORK_APPS : List String :=
  ["explorer", "task manager", "taskmgr", "clock", "calculator",
   "snipping tool", "magnifier", "narrator", "on-screen keyboard",
   "action center", "start", "search", "cortana", "settings",
   "control panel", "windows security", "system tray", "notification",
   "lockapp", "screensaver", "logonui"]

/-- `VSCODE_APP_NAMES`. -/
def VSCODE_APP_NAMES : List String :=
  ["code", "code - insiders", "visual studio code"]

/-- Split a character list on a (non-empty) separator sequence; the fuel
keeps the recursion structural. -/
def splitSeqF (sep : List Char) : ℕ → List Char → List (List Char)
  | _, [] => [[]]
  | 0, l => [l]
  | f + 1, c :: rest =>
      if sep ≠ [] ∧ sep.isPrefixOf (c :: rest) then
        [] :: splitSeqF sep f ((c :: rest).drop sep.length)
      else
        match splitSeqF sep f rest with
        | [] => [[c]]
        | g :: gs => (c :: g) :: gs

/-- Split a string on a separator string. -/
def splitSeq (sep : String) (s : String) : List String :=
  ((splitSeqF sep.data (s.data.length + 1) s.data).map String.mk)

/-- Whether a title segment starts (case-insensitively) with
`Visual Studio Code`, as the tail of `VSCODE_TITLE_RE` requires. -/
def vscMark (s : String) : Bool :=
  "visual studio code".data.isPrefixOf (lowerStr (stripStr s)).data

/-- Whether a segment is free of hyphens; the regex groups
`(?P<filename>[^-]+?)` and `(?P<folder>[^-]+?)` admit no `-` at all, so a
hyphenated segment sends Python's matcher to the fallback. -/
def hyphenFree (s : String) : Bool := !(s.data.contains '-')

/-- `_parse_vscode_project`, specialised to titles whose separators are
written `" - "` (the conventional VSCode form the regex targets): an
optional hyphen-free `filename - ` prefix, then a hyphen-free folder,
then a segment beginning (case-insensitively) with `Visual Studio Code`;
any other shape falls to the fallback, which takes the part before the
last `" - "` whenever the title mentions `Visual Studio Code`. -/
def parse_vscode_project (title : String) : Option String :=
  let parts := splitSeq " - " (stripStr title)
  match parts with
  | a :: b :: rest =>
      if (match rest with | c :: _ => vscMark c | [] => false) &&
          hyphenFree a && hyphenFree b then
        some (stripStr b)
      else if vscMark b && hyphenFree a then some (stripStr a)
      else if strContains title "Visual Studio Code" ∧ 1 < parts.length then
        some (stripStr (joinSep " - " parts.dropLast))
      else none
  | _ =>
      if strContains title "Visual Studio Code" ∧ 1 < parts.length then
        some (stripStr (joinSep " - " parts.dropLast))
      else none

/-- A successful active-window observation. -/
structure WindowInfo where
  app : String
  title : String
  project : Option String
  deriving DecidableEq

/-- `window_poller.get_active_window_info` given the raw title and app
name of the active window: skip when both are empty, skip any window
whose lower-cased app name or title contains a non-work word, skip blank
titles (`NON_WORK_TITLE_PATTERNS`), then attach the VSCode project hint. -/
def get_active_window_info (rawApp rawTitle : String) : Option WindowInfo :=
  let title := stripStr rawTitle
  let app := stripStr rawApp
  if title = "" ∧ app = "" then none
  else
    let appLower := lowerStr app
    let titleLower := lowerStr title
    if NON_WORK_APPS.any (fun w =>
        strContains appLower w || strContains titleLower w) then none
    else if title = "" then none
    else
      let project :=
        if VSCODE_APP_NAMES.contains appLower || strContains appLower "code"
        then parse_vscode_project title
        else none
      some ⟨app, title, project⟩

/-- The write decision of `window_poller.poll_once`: no row when there is
no window info, none when the `app||title` key equals the previous poll's
key; otherwise one `window_focus` row (reduced to `(app, title)`) and a
refreshed key. -/
def poll_once_row (info : Option WindowInfo) (lastKey : String) :
    Option (String × String) × String :=
  match info with
  | none => (none, lastKey)
  | some i =>
      let key := i.app ++ "||" ++ i.title
      if key = lastKey then (none, lastKey)
      else (some (i.app, i.title), key)

/-! ## Helper lemmas on `pyInt` (Python truncation) -/

theorem abs_pyInt_sub_lt_one (q : ℚ) : |(pyInt q : ℚ) - q| < 1 := by
  rw [abs_lt]
  unfold pyInt
  split
  · have h1 := Int.floor_le q
    have h2 := Int.sub_one_lt_floor q
    constructor <;> linarith
  · have h1 := Int.le_ceil q
    have h2 := Int.ceil_lt_add_one q
    constructor <;> linarith

theorem pyInt_le_ceil (q : ℚ) : pyInt q ≤ ⌈q⌉ := by
  unfold pyInt
  split
  · exact Int.floor_le_ceil q
  · exact le_refl _

theorem pyInt_mono {a b : ℚ} (h : a ≤ b) : pyInt a ≤ pyInt b := by
  unfold pyInt
  by_cases ha : 0 ≤ a <;> by_cases hb : 0 ≤ b
  · rw [if_pos ha, if_pos hb]; exact Int.floor_le_floor h
  · exact absurd (le_trans ha h) hb
  · rw [if_neg ha, if_pos hb]
    have h1 : ⌈a⌉ ≤ (0 : ℤ) :=
      Int.ceil_le.mpr (by exact_mod_cast (not_le.mp ha).le)
    exact le_trans h1 (Int.floor_nonneg.mpr hb)
  · rw [if_neg ha, if_neg hb]; exact Int.ceil_le_ceil h

theorem pyInt_intCast (n : ℤ) : pyInt (n : ℚ) = n := by
  unfold pyInt
  split
  · exact Int.floor_intCast n
  · exact Int.ceil_intCast n

theorem pyInt_le_of_lt {c : ℤ} {y : ℚ} (h : y < (c : ℚ)) : pyInt y ≤ c :=
  le_trans (pyInt_le_ceil y) (Int.ceil_le.mpr h.le)

/-! ## Claim theorems -/

/-- Idealised-arithmetic round trip (supporting context for C6): with
the conversion formulas carried out in exact arithmetic, the only loss is
the `int()` truncation to whole microseconds, so the round-trip error is
below one microsecond.  The claim itself is decided by the source's
binary64 arithmetic, treated below. -/
theorem chrome_roundtrip (t : ℚ) :
    |chrome_ts_to_unix (unix_to_chrome_ts t) - t| < 1 / 1000000 := by
  have h := abs_pyInt_sub_lt_one (t * 1000000 + (CHROME_EPOCH_OFFSET_US : ℚ))
  unfold chrome_ts_to_unix unix_to_chrome_ts
  have heq :
      ((pyInt (t * 1000000 + (CHROME_EPOCH_OFFSET_US : ℚ)) : ℚ) -
            (CHROME_EPOCH_OFFSET_US : ℚ)) / 1000000 - t =
        ((pyInt (t * 1000000 + (CHROME_EPOCH_OFFSET_US : ℚ)) : ℚ) -
            (t * 1000000 + (CHROME_EPOCH_OFFSET_US : ℚ))) / 1000000 := by
    ring
  rw [heq, abs_div, abs_of_pos (by norm_num : (0 : ℚ) < 1000000),
    div_lt_div_iff_of_pos_right (by norm_num : (0 : ℚ) < 1000000)]
  exact h

/-! ### Lemmas on the binary64 rounding model -/

theorem rtne_cases (y : ℚ) : rtne y = ⌊y⌋ ∨ rtne y = ⌊y⌋ + 1 := by
  unfold rtne
  split
  · exact Or.inl rfl
  · split
    · exact Or.inr rfl
    · split
      · exact Or.inl rfl
      · exact Or.inr rfl

theorem rtne_sub_abs_le (y : ℚ) : |(rtne y : ℚ) - y| ≤ 1 / 2 := by
  have hf1 : ((⌊y⌋ : ℤ) : ℚ) ≤ y := Int.floor_le y
  have hf2 : y < ⌊y⌋ + 1 := Int.lt_floor_add_one y
  unfold rtne
  split
  · rename_i h
    rw [abs_le]; constructor <;> linarith
  · rename_i h
    push_neg at h
    split
    · rename_i h2
      rw [abs_le]; constructor <;> push_cast <;> linarith
    · rename_i h2
      push_neg at h2
      split
      · rw [abs_le]; constructor <;> linarith
      · rw [abs_le]; constructor <;> push_cast <;> linarith

theorem rtne_intCast (n : ℤ) : rtne ((n : ℚ)) = n := by
  unfold rtne
  rw [Int.floor_intCast]
  rw [if_pos (by norm_num)]

theorem log2_eq_of_bounds {a : ℚ} {e : ℤ} (h0 : 0 < a)
    (h1 : (2 : ℚ) ^ e ≤ a) (h2 : a < (2 : ℚ) ^ (e + 1)) :
    Int.log 2 a = e := by
  have hc : ((2 : ℕ) : ℚ) = (2 : ℚ) := by norm_num
  have h1c : ((2 : ℕ) : ℚ) ^ e ≤ a := by rw [hc]; exact h1
  have h2c : a < ((2 : ℕ) : ℚ) ^ (e + 1) := by rw [hc]; exact h2
  have ha := (Int.zpow_le_iff_le_log (by norm_num) h0).mp h1c
  have hb := (Int.lt_zpow_iff_log_lt (by norm_num) h0).mp h2c
  omega

theorem fl_of_pos {x : ℚ} (h : 0 < x) : fl x = flPos x := by
  unfold fl
  rw [if_neg (ne_of_gt h), if_neg (not_lt.mpr h.le)]

theorem flPos_eval {a : ℚ} {e m : ℤ} (h0 : 0 < a)
    (h1 : (2 : ℚ) ^ e ≤ a) (h2 : a < (2 : ℚ) ^ (e + 1))
    (hm : rtne (a / (2 : ℚ) ^ (e - 52)) = m) :
    flPos a = (m : ℚ) * (2 : ℚ) ^ (e - 52) := by
  unfold flPos
  rw [log2_eq_of_bounds h0 h1 h2, hm]

theorem flPos_err {a : ℚ} {e : ℤ} (h0 : 0 < a)
    (h2 : a < (2 : ℚ) ^ (e + 1)) :
    |flPos a - a| ≤ (2 : ℚ) ^ (e - 53) := by
  have hle : Int.log 2 a ≤ e := by
    have hc : ((2 : ℕ) : ℚ) = (2 : ℚ) := by norm_num
    have h2c : a < ((2 : ℕ) : ℚ) ^ (e + 1) := by rw [hc]; exact h2
    have := (Int.lt_zpow_iff_log_lt (by norm_num) h0).mp h2c
    omega
  have hs : (0 : ℚ) < (2 : ℚ) ^ (Int.log 2 a - 52) :=
    zpow_pos (by norm_num) _
  have hy : a / (2 : ℚ) ^ (Int.log 2 a - 52) * (2 : ℚ) ^ (Int.log 2 a - 52)
      = a := div_mul_cancel₀ a (ne_of_gt hs)
  have habs : |flPos a - a| =
      |(rtne (a / (2 : ℚ) ^ (Int.log 2 a - 52)) : ℚ) -
          a / (2 : ℚ) ^ (Int.log 2 a - 52)| *
        (2 : ℚ) ^ (Int.log 2 a - 52) := by
    unfold flPos
    rw [show (rtne (a / (2:ℚ) ^ (Int.log 2 a - 52)) : ℚ) *
          (2:ℚ) ^ (Int.log 2 a - 52) - a =
        ((rtne (a / (2:ℚ) ^ (Int.log 2 a - 52)) : ℚ) -
          a / (2:ℚ) ^ (Int.log 2 a - 52)) *
            (2:ℚ) ^ (Int.log 2 a - 52) by rw [sub_mul, hy]]
    rw [abs_mul, abs_of_pos hs]
  rw [habs]
  have hstep : |(rtne (a / (2:ℚ) ^ (Int.log 2 a - 52)) : ℚ) -
        a / (2:ℚ) ^ (Int.log 2 a - 52)| *
      (2:ℚ) ^ (Int.log 2 a - 52) ≤ (1 / 2) * (2:ℚ) ^ (Int.log 2 a - 52) :=
    mul_le_mul_of_nonneg_right (rtne_sub_abs_le _) hs.le
  have hhalf : (1 / 2 : ℚ) * (2:ℚ) ^ (Int.log 2 a - 52) =
      (2:ℚ) ^ (Int.log 2 a - 53) := by
    rw [show Int.log 2 a - 53 = (Int.log 2 a - 52) + (-1) by ring,
      zpow_add₀ (by norm_num : (2:ℚ) ≠ 0)]
    norm_num
    ring
  have hmono : (2:ℚ) ^ (Int.log 2 a - 53) ≤ (2:ℚ) ^ (e - 53) :=
    zpow_le_zpow_right₀ (by norm_num) (by omega)
  calc |(rtne (a / (2:ℚ) ^ (Int.log 2 a - 52)) : ℚ) -
        a / (2:ℚ) ^ (Int.log 2 a - 52)| *
      (2:ℚ) ^ (Int.log 2 a - 52)
      ≤ (1 / 2) * (2:ℚ) ^ (Int.log 2 a - 52) := hstep
    _ = (2:ℚ) ^ (Int.log 2 a - 53) := hhalf
    _ ≤ (2:ℚ) ^ (e - 53) := hmono

theorem flPos_nonneg {a : ℚ} (h0 : 0 < a) : 0 ≤ flPos a := by
  unfold flPos
  have hy : 0 ≤ a / (2 : ℚ) ^ (Int.log 2 a - 52) :=
    div_nonneg h0.le (zpow_pos (by norm_num : (0:ℚ) < 2) _).le
  have hfl : (0 : ℤ) ≤ ⌊a / (2 : ℚ) ^ (Int.log 2 a - 52)⌋ :=
    Int.floor_nonneg.mpr hy
  have hr : (0 : ℤ) ≤ rtne (a / (2 : ℚ) ^ (Int.log 2 a - 52)) := by
    rcases rtne_cases (a / (2 : ℚ) ^ (Int.log 2 a - 52)) with h | h <;>
      rw [h] <;> omega
  exact mul_nonneg (by exact_mod_cast hr)
    (zpow_pos (by norm_num : (0:ℚ) < 2) _).le

theorem fl_err {x : ℚ} {e : ℤ} (h2 : |x| < (2 : ℚ) ^ (e + 1)) :
    |fl x - x| ≤ (2 : ℚ) ^ (e - 53) := by
  unfold fl
  split
  · rename_i h
    rw [h]
    simpa using (zpow_pos (by norm_num : (0:ℚ) < 2) (e - 53)).le
  · split
    · rename_i hne hneg
      have h0 : 0 < -x := by linarith [not_le.mpr hneg]
      have h2n : -x < (2 : ℚ) ^ (e + 1) := by
        rwa [abs_of_neg (by linarith : x < 0)] at h2
      have := flPos_err h0 h2n
      calc |-flPos (-x) - x| = |-(flPos (-x) - -x)| := by ring_nf
        _ = |flPos (-x) - -x| := abs_neg _
        _ ≤ (2 : ℚ) ^ (e - 53) := this
    · rename_i hne hpos
      have h0 : 0 < x := lt_of_le_of_ne (not_lt.mp hpos) (Ne.symm hne)
      have h2p : x < (2 : ℚ) ^ (e + 1) := by rwa [abs_of_pos h0] at h2
      exact flPos_err h0 h2p

/-- C6 counterexample: under the source's binary64 arithmetic the
round trip misses the claimed one-microsecond bound.  At
`t = 1300000000 + 58·2⁻²³` (an ordinary double, year 2011) the multiply
rounds `t·1e6` to `1300000000000007.0`, adding the offset lands exactly
on the odd integer `12944473600000007` in the binade where the double ulp
is 2 µs and ties-to-even rounds it up to `…008`, and the final division
rounds once more: the result is `t + 5/4194304·10⁰`, an error of
`5/4194304 µs·s⁻¹·s ≈ 1.192 µs > 1 µs`, refuting
`|roundtrip(t) − t| < 1e-6` as stated. -/
theorem chrome_roundtrip_fp_counterexample :
    chrome_ts_to_unix_fp
        (unix_to_chrome_ts_fp (1300000000 + 29 / 4194304)) -
      (1300000000 + 29 / 4194304) = 5 / 4194304 ∧
    ¬|chrome_ts_to_unix_fp
          (unix_to_chrome_ts_fp (1300000000 + 29 / 4194304)) -
        (1300000000 + 29 / 4194304)| < 1 / 1000000 := by
  have hOFF : (CHROME_EPOCH_OFFSET_US : ℚ) = 11644473600000000 := by
    norm_num [CHROME_EPOCH_OFFSET_US]
  have he1 : fl ((1300000000 + 29 / 4194304 : ℚ) * 1000000) =
      1300000000000007 := by
    have hx : (1300000000 + 29 / 4194304 : ℚ) * 1000000 =
        1300000000000000 + 453125 / 65536 := by norm_num
    rw [hx, fl_of_pos (by norm_num)]
    have hm : rtne ((1300000000000000 + 453125 / 65536 : ℚ) /
        (2 : ℚ) ^ ((50 : ℤ) - 52)) = 5200000000000028 := by
      have hy : (1300000000000000 + 453125 / 65536 : ℚ) /
          (2 : ℚ) ^ ((50 : ℤ) - 52) = 5200000000000027 + 10757 / 16384 := by
        norm_num
      rw [hy]; norm_num [rtne]
    rw [flPos_eval (by norm_num) (by norm_num) (by norm_num) hm]
    norm_num
  have he2 : fl ((12944473600000007 : ℚ)) = 12944473600000008 := by
    rw [fl_of_pos (by norm_num)]
    have hm : rtne ((12944473600000007 : ℚ) / (2 : ℚ) ^ ((53 : ℤ) - 52)) =
        6472236800000004 := by
      have hy : (12944473600000007 : ℚ) / (2 : ℚ) ^ ((53 : ℤ) - 52) =
          6472236800000003 + 1 / 2 := by norm_num
      rw [hy]; norm_num [rtne, Int.even_iff]
    rw [flPos_eval (by norm_num) (by norm_num) (by norm_num) hm]
    norm_num
  have he3 : fl ((1300000000 + 1 / 125000 : ℚ)) =
      1300000000 + 17 / 2097152 := by
    rw [fl_of_pos (by norm_num)]
    have hm : rtne ((1300000000 + 1 / 125000 : ℚ) /
        (2 : ℚ) ^ ((30 : ℤ) - 52)) = 5452595200000034 := by
      have hy : (1300000000 + 1 / 125000 : ℚ) /
          (2 : ℚ) ^ ((30 : ℤ) - 52) = 5452595200000033 + 8663 / 15625 := by
        norm_num
      rw [hy]; norm_num [rtne]
    rw [flPos_eval (by norm_num) (by norm_num) (by norm_num) hm]
    norm_num
  have hrt : chrome_ts_to_unix_fp
      (unix_to_chrome_ts_fp (1300000000 + 29 / 4194304)) =
      1300000000 + 17 / 2097152 := by
    unfold chrome_ts_to_unix_fp unix_to_chrome_ts_fp
    rw [he1, hOFF,
      show (1300000000000007 + (11644473600000000 : ℚ)) = 12944473600000007
        from by norm_num,
      he2,
      show pyInt ((12944473600000008 : ℚ)) = 12944473600000008
        from by norm_num [pyInt],
      show (((12944473600000008 : ℤ) : ℚ) - 11644473600000000) / 1000000 =
          1300000000 + 1 / 125000 from by norm_num]
    exact he3
  rw [hrt]
  have habs : (1300000000 + 17 / 2097152 : ℚ) -
      (1300000000 + 29 / 4194304) = 5 / 4194304 := by norm_num
  rw [habs, abs_of_pos (by norm_num : (0 : ℚ) < 5 / 4194304)]
  constructor
  · rfl
  · norm_num

/-- C6 (amended): under the source's IEEE-754 double arithmetic the
epoch conversion round-trips within two microseconds for every Unix
timestamp `0 ≤ t ≤ 2^32` (through the year 2106):
`|roundtrip(t) − t| < 2e-6`.  The one-microsecond bound of the original
claim fails — the intermediate Chrome-epoch value sits near `1.3e16`
where one double ulp is 2 µs, so the addition alone contributes up to
1 µs, the multiply up to 0.25 µs, and the final division up to half an
ulp of the result — but the error never reaches a second microsecond. -/
theorem chrome_roundtrip_fp (t : ℚ) (ht0 : 0 ≤ t) (ht1 : t ≤ 2 ^ 32) :
    |chrome_ts_to_unix_fp (unix_to_chrome_ts_fp t) - t| < 2 / 1000000 := by
  have hOFF : (CHROME_EPOCH_OFFSET_US : ℚ) = 11644473600000000 := by
    norm_num [CHROME_EPOCH_OFFSET_US]
  rcases eq_or_lt_of_le ht0 with h0 | htpos
  · have hfl0 : fl (0 : ℚ) = 0 := by unfold fl; rw [if_pos rfl]
    have he2 : fl ((11644473600000000 : ℚ)) = 11644473600000000 := by
      rw [fl_of_pos (by norm_num)]
      have hm : rtne ((11644473600000000 : ℚ) / (2 : ℚ) ^ ((53 : ℤ) - 52)) =
          5822236800000000 := by
        have hy : (11644473600000000 : ℚ) / (2 : ℚ) ^ ((53 : ℤ) - 52) =
            ((5822236800000000 : ℤ) : ℚ) := by norm_num
        rw [hy, rtne_intCast]
      rw [flPos_eval (by norm_num) (by norm_num) (by norm_num) hm]
      norm_num
    rw [← h0]
    unfold chrome_ts_to_unix_fp unix_to_chrome_ts_fp
    rw [show (0 : ℚ) * 1000000 = 0 from by ring, hfl0, hOFF,
      show ((0 : ℚ) + 11644473600000000) = 11644473600000000
        from by norm_num,
      he2,
      show pyInt ((11644473600000000 : ℚ)) = 11644473600000000
        from by norm_num [pyInt],
      show (((11644473600000000 : ℤ) : ℚ) - 11644473600000000) / 1000000 = 0
        from by norm_num,
      hfl0]
    norm_num
  · have hx1pos : 0 < t * 1000000 := by positivity
    have ht1' : t ≤ 4294967296 := le_trans ht1 (by norm_num)
    have hx1ub' : t * 1000000 ≤ 4294967296000000 := by
      calc t * 1000000 ≤ 4294967296 * 1000000 :=
            mul_le_mul_of_nonneg_right ht1' (by norm_num)
        _ = 4294967296000000 := by norm_num
    have hx1ub : t * 1000000 < (2 : ℚ) ^ ((51 : ℤ) + 1) := by
      have h2v : (2 : ℚ) ^ ((51 : ℤ) + 1) = 4503599627370496 := by norm_num
      linarith
    have hf1err : |fl (t * 1000000) - t * 1000000| ≤ 1 / 4 := by
      rw [fl_of_pos hx1pos]
      calc |flPos (t * 1000000) - t * 1000000| ≤ (2 : ℚ) ^ ((51 : ℤ) - 53) :=
            flPos_err hx1pos hx1ub
        _ = 1 / 4 := by norm_num
    have hf1nn : 0 ≤ fl (t * 1000000) := by
      rw [fl_of_pos hx1pos]; exact flPos_nonneg hx1pos
    have hf1ub : fl (t * 1000000) ≤ 4294967296000000 + 1 / 4 := by
      have h1 := (abs_le.mp hf1err).2
      linarith
    have hx2pos : 0 < fl (t * 1000000) + (CHROME_EPOCH_OFFSET_US : ℚ) := by
      rw [hOFF]; linarith
    have hx2lb : (2 : ℚ) ^ (53 : ℤ) ≤
        fl (t * 1000000) + (CHROME_EPOCH_OFFSET_US : ℚ) := by
      rw [hOFF]
      have h2v : (2 : ℚ) ^ (53 : ℤ) = 9007199254740992 := by norm_num
      linarith
    have hx2ub : fl (t * 1000000) + (CHROME_EPOCH_OFFSET_US : ℚ) <
        (2 : ℚ) ^ ((53 : ℤ) + 1) := by
      rw [hOFF]
      have h2v : (2 : ℚ) ^ ((53 : ℤ) + 1) = 18014398509481984 := by norm_num
      linarith
    have hlog : Int.log 2
        (fl (t * 1000000) + (CHROME_EPOCH_OFFSET_US : ℚ)) = 53 :=
      log2_eq_of_bounds hx2pos hx2lb hx2ub
    have hf2err : |fl (fl (t * 1000000) + (CHROME_EPOCH_OFFSET_US : ℚ)) -
        (fl (t * 1000000) + (CHROME_EPOCH_OFFSET_US : ℚ))| ≤ 1 := by
      rw [fl_of_pos hx2pos]
      calc |flPos (fl (t * 1000000) + (CHROME_EPOCH_OFFSET_US : ℚ)) -
            (fl (t * 1000000) + (CHROME_EPOCH_OFFSET_US : ℚ))|
          ≤ (2 : ℚ) ^ ((53 : ℤ) - 53) := flPos_err hx2pos hx2ub
        _ = 1 := by norm_num
    have hpy : (pyInt (fl (fl (t * 1000000) +
        (CHROME_EPOCH_OFFSET_US : ℚ))) : ℚ) =
        fl (fl (t * 1000000) + (CHROME_EPOCH_OFFSET_US : ℚ)) := by
      have hk : fl (fl (t * 1000000) + (CHROME_EPOCH_OFFSET_US : ℚ)) =
          ((2 * rtne ((fl (t * 1000000) + (CHROME_EPOCH_OFFSET_US : ℚ)) /
            (2 : ℚ) ^ ((53 : ℤ) - 52)) : ℤ) : ℚ) := by
        rw [fl_of_pos hx2pos]
        unfold flPos
        rw [hlog]
        rw [show (2 : ℚ) ^ ((53 : ℤ) - 52) = 2 from by norm_num]
        push_cast
        ring
      rw [hk, pyInt_intCast]
    have hd : |(fl (fl (t * 1000000) + (CHROME_EPOCH_OFFSET_US : ℚ)) -
        (CHROME_EPOCH_OFFSET_US : ℚ)) - t * 1000000| ≤ 5 / 4 := by
      have hsplit : (fl (fl (t * 1000000) + (CHROME_EPOCH_OFFSET_US : ℚ)) -
          (CHROME_EPOCH_OFFSET_US : ℚ)) - t * 1000000 =
          (fl (fl (t * 1000000) + (CHROME_EPOCH_OFFSET_US : ℚ)) -
            (fl (t * 1000000) + (CHROME_EPOCH_OFFSET_US : ℚ))) +
          (fl (t * 1000000) - t * 1000000) := by ring
      rw [hsplit]
      calc |(fl (fl (t * 1000000) + (CHROME_EPOCH_OFFSET_US : ℚ)) -
            (fl (t * 1000000) + (CHROME_EPOCH_OFFSET_US : ℚ))) +
          (fl (t * 1000000) - t * 1000000)|
          ≤ |fl (fl (t * 1000000) + (CHROME_EPOCH_OFFSET_US : ℚ)) -
              (fl (t * 1000000) + (CHROME_EPOCH_OFFSET_US : ℚ))| +
            |fl (t * 1000000) - t * 1000000| := abs_add _ _
        _ ≤ 5 / 4 := by linarith
    have hq : |(fl (fl (t * 1000000) + (CHROME_EPOCH_OFFSET_US : ℚ)) -
        (CHROME_EPOCH_OFFSET_US : ℚ)) / 1000000 - t| ≤ 5 / 4 / 1000000 := by
      rw [show (fl (fl (t * 1000000) + (CHROME_EPOCH_OFFSET_US : ℚ)) -
          (CHROME_EPOCH_OFFSET_US : ℚ)) / 1000000 - t =
          ((fl (fl (t * 1000000) + (CHROME_EPOCH_OFFSET_US : ℚ)) -
            (CHROME_EPOCH_OFFSET_US : ℚ)) - t * 1000000) / 1000000
          from by ring]
      rw [abs_div, abs_of_pos (show (0 : ℚ) < 1000000 from by norm_num)]
      rw [div_le_div_iff_of_pos_right (show (0 : ℚ) < 1000000
        from by norm_num)]
      exact hd
    have hqabs : |(fl (fl (t * 1000000) + (CHROME_EPOCH_OFFSET_US : ℚ)) -
        (CHROME_EPOCH_OFFSET_US : ℚ)) / 1000000| <
        (2 : ℚ) ^ ((32 : ℤ) + 1) := by
      have htri : |(fl (fl (t * 1000000) + (CHROME_EPOCH_OFFSET_US : ℚ)) -
          (CHROME_EPOCH_OFFSET_US : ℚ)) / 1000000| ≤ |t| +
          |(fl (fl (t * 1000000) + (CHROME_EPOCH_OFFSET_US : ℚ)) -
            (CHROME_EPOCH_OFFSET_US : ℚ)) / 1000000 - t| := by
        nth_rewrite 1 [show (fl (fl (t * 1000000) +
            (CHROME_EPOCH_OFFSET_US : ℚ)) -
            (CHROME_EPOCH_OFFSET_US : ℚ)) / 1000000 =
            t + ((fl (fl (t * 1000000) + (CHROME_EPOCH_OFFSET_US : ℚ)) -
              (CHROME_EPOCH_OFFSET_US : ℚ)) / 1000000 - t) from by ring]
        exact abs_add _ _
      rw [abs_of_nonneg ht0] at htri
      have h2v : (2 : ℚ) ^ ((32 : ℤ) + 1) = 8589934592 := by norm_num
      linarith
    have hfq := fl_err hqabs
    have h221 : (2 : ℚ) ^ ((32 : ℤ) - 53) = 1 / 2097152 := by norm_num
    rw [h221] at hfq
    unfold chrome_ts_to_unix_fp unix_to_chrome_ts_fp
    rw [hpy]
    rw [show fl ((fl (fl (t * 1000000) + (CHROME_EPOCH_OFFSET_US : ℚ)) -
        (CHROME_EPOCH_OFFSET_US : ℚ)) / 1000000) - t =
        (fl ((fl (fl (t * 1000000) + (CHROME_EPOCH_OFFSET_US : ℚ)) -
          (CHROME_EPOCH_OFFSET_US : ℚ)) / 1000000) -
          (fl (fl (t * 1000000) + (CHROME_EPOCH_OFFSET_US : ℚ)) -
            (CHROME_EPOCH_OFFSET_US : ℚ)) / 1000000) +
        ((fl (fl (t * 1000000) + (CHROME_EPOCH_OFFSET_US : ℚ)) -
          (CHROME_EPOCH_OFFSET_US : ℚ)) / 1000000 - t) from by ring]
    calc |(fl ((fl (fl (t * 1000000) + (CHROME_EPOCH_OFFSET_US : ℚ)) -
          (CHROME_EPOCH_OFFSET_US : ℚ)) / 1000000) -
          (fl (fl (t * 1000000) + (CHROME_EPOCH_OFFSET_US : ℚ)) -
            (CHROME_EPOCH_OFFSET_US : ℚ)) / 1000000) +
        ((fl (fl (t * 1000000) + (CHROME_EPOCH_OFFSET_US : ℚ)) -
          (CHROME_EPOCH_OFFSET_US : ℚ)) / 1000000 - t)|
        ≤ |fl ((fl (fl (t * 1000000) + (CHROME_EPOCH_OFFSET_US : ℚ)) -
            (CHROME_EPOCH_OFFSET_US : ℚ)) / 1000000) -
            (fl (fl (t * 1000000) + (CHROME_EPOCH_OFFSET_US : ℚ)) -
              (CHROME_EPOCH_OFFSET_US : ℚ)) / 1000000| +
          |(fl (fl (t * 1000000) + (CHROME_EPOCH_OFFSET_US : ℚ)) -
            (CHROME_EPOCH_OFFSET_US : ℚ)) / 1000000 - t| := abs_add _ _
      _ ≤ 1 / 2097152 + 5 / 4 / 1000000 := by linarith
      _ < 2 / 1000000 := by norm_num

/-- C6 (amended) witness: the bound instantiated at the very timestamp
of the counterexample — its 1.192 µs error is below two microseconds. -/
theorem chrome_roundtrip_fp_witness :
    |chrome_ts_to_unix_fp
        (unix_to_chrome_ts_fp (1300000000 + 29 / 4194304)) -
      (1300000000 + 29 / 4194304)| < 2 / 1000000 :=
  chrome_roundtrip_fp (1300000000 + 29 / 4194304) (by norm_num)
    (by norm_num)

/-- Auxiliary: `find?` skips a prefix on which it fails. -/
theorem find?_append_none {α} (p : α → Bool) {l1 : List α}
    (h : l1.find? p = none) (l2 : List α) :
    (l1 ++ l2).find? p = l2.find? p := by
  induction l1 with
  | nil => rfl
  | cons a l ih =>
      rw [List.cons_append]
      rw [List.find?_cons] at h ⊢
      cases hpa : p a with
      | true => simp [hpa] at h
      | false =>
          simp only [hpa] at h ⊢
          exact ih h

/-- C1: `get_or_create_project` is idempotent.  For a table respecting
the `projects.name` UNIQUE constraint (at most one row per name), two
sequential calls with the same name return the same id and leave exactly
one row carrying that name. -/
theorem get_or_create_project_idempotent (name path1 path2 now1 now2 : String)
    (s : List Project) (h : countName s name ≤ 1) :
    (get_or_create_project name path1 now1 s).1 =
      (get_or_create_project name path2 now2
        (get_or_create_project name path1 now1 s).2).1 ∧
    countName
      (get_or_create_project name path2 now2
        (get_or_create_project name path1 now1 s).2).2 name = 1 := by
  cases hf : s.find? (fun p => p.name = name) with
  | some p =>
      have hp := List.find?_some hf
      have hmem := List.mem_of_find?_eq_some hf
      simp only [get_or_create_project, hf]
      refine ⟨trivial, ?_⟩
      have hone : 1 ≤ (s.filter (fun p => p.name = name)).length :=
        List.length_pos.mpr
          (List.ne_nil_of_mem (List.mem_filter.mpr ⟨hmem, hp⟩))
      unfold countName at h ⊢
      omega
  | none =>
      have hnil : s.filter (fun p => p.name = name) = [] := by
        rw [List.filter_eq_nil_iff]
        intro a ha
        have := List.find?_eq_none.mp hf a ha
        simpa using this
      have hsnd :
          (s ++ [(⟨nextId s, name, path1, "active", now1⟩ : Project)]).find?
              (fun p => p.name = name) =
            some ⟨nextId s, name, path1, "active", now1⟩ := by
        rw [find?_append_none _ hf, List.find?_cons]
        simp
      simp only [get_or_create_project, hf, hsnd]
      refine ⟨trivial, ?_⟩
      unfold countName
      rw [List.filter_append, hnil]
      simp

/-- C1 witness: registering `alpha` twice against an initially empty
table returns the same id both times and leaves a single `alpha` row. -/
theorem get_or_create_project_idempotent_witness :
    countName [] "alpha" ≤ 1 ∧
    ((get_or_create_project "alpha" "/w/alpha" "t1" []).1 =
      (get_or_create_project "alpha" "/w/alpha2" "t2"
        (get_or_create_project "alpha" "/w/alpha" "t1" []).2).1 ∧
    countName
      (get_or_create_project "alpha" "/w/alpha2" "t2"
        (get_or_create_project "alpha" "/w/alpha" "t1" []).2).2 "alpha" =
      1) :=
  ⟨by decide,
    get_or_create_project_idempotent "alpha" "/w/alpha" "/w/alpha2" "t1" "t2"
      [] (by decide)⟩

/-- C2: for every path and list of watch roots, the resolver returns, for
the first watch root the (separator-normalised) path is relative to —
directly or via the lower-cased fallback — the first component of the
relative path; when no root matches it returns `none` (and, being a total
function, it never raises). -/
theorem map_path_to_project_spec (p : String) (roots : List String) :
    (∀ r c cs,
        roots.find? (fun r2 => (tryRelative p r2).isSome) = some r →
        tryRelative p r = some (c :: cs) →
        map_path_to_project p roots = some c) ∧
    ((∀ r ∈ roots, tryRelative p r = none) →
        map_path_to_project p roots = none) := by
  constructor
  · induction roots with
    | nil => intro r c cs hfind; simp at hfind
    | cons r0 rest ih =>
        intro r c cs hfind htry
        by_cases h0 : (tryRelative p r0).isSome
        · simp only [List.find?_cons, h0] at hfind
          injection hfind with hr
          subst hr
          simp [map_path_to_project, mapGo, htry]
        · have h0n : tryRelative p r0 = none := by
            cases hx : tryRelative p r0 with
            | none => rfl
            | some v => rw [hx] at h0; simp at h0
          simp only [List.find?_cons, h0n, Option.isSome_none] at hfind
          have := ih r c cs hfind htry
          simpa [map_path_to_project, mapGo, h0n] using this
  · induction roots with
    | nil => intro _; rfl
    | cons r0 rest ih =>
        intro hall
        have h0 : tryRelative p r0 = none := hall r0 (List.mem_cons_self r0 rest)
        unfold map_path_to_project mapGo
        rw [h0]
        exact ih (fun r hr => hall r (List.mem_cons_of_mem r0 hr))

/-- C2 witness: Scenario A, `/root/myproj/src/a.py` under watch root
`/root` resolves to project `myproj`. -/
theorem map_path_to_project_spec_witness :
    map_path_to_project "/root/myproj/src/a.py" ["/root"] = some "myproj" :=
  (map_path_to_project_spec "/root/myproj/src/a.py" ["/root"]).1 "/root"
    "myproj" ["src", "a.py"] (by decide) (by decide)

/-- C3: the exclusion filter fires exactly when some pattern matches a
path component, the full path string, or the basename; and Scenario C: a
pattern matching only a proper substring of a component does not
exclude. -/
theorem should_exclude_spec (p : String) (E : List String) :
    (should_exclude p E = true ↔
      ∃ pat ∈ E,
        (∃ part ∈ pyParts p, fnmatch part pat = true) ∨
          fnmatch (pyStr p) pat = true ∨ fnmatch (pyName p) pat = true) ∧
    should_exclude "/root/app/node_modules/pkg/index.js" ["node_modules"] =
      true ∧
    should_exclude "/root/app/src/node_modules_helper.js" ["node_modules"] =
      false := by
  refine ⟨?_, by decide, by decide⟩
  simp [should_exclude, List.any_eq_true, Bool.or_eq_true, or_assoc]

/-- C4: once the debounce filter accepts a key at time `t` (so the cache
maps the key to `t`), a same-key event strictly within 2 seconds is
suppressed, one at 2 seconds or later is accepted, and acceptance
refreshes the recorded timestamp to the new time. -/
theorem is_debounced_window_spec (c : DebCache) (path : String) (t now : ℚ)
    (h : c path = some t) :
    (now - t < 2 → (is_debounced c path now).1 = true) ∧
    (2 ≤ now - t →
      (is_debounced c path now).1 = false ∧
      (is_debounced c path now).2 path = some now) := by
  constructor
  · intro hlt
    have : is_debounced c path now = (true, c) := by
      simp [is_debounced, DEBOUNCE_SECONDS, h, hlt]
    rw [this]
  · intro hge
    have hacc : is_debounced c path now =
        (false, cachePrune (cacheSet c path now) (now - 60)) := by
      simp [is_debounced, DEBOUNCE_SECONDS, h, not_lt.mpr hge]
    rw [hacc]
    refine ⟨rfl, ?_⟩
    have h1 : cacheSet c path now path = some now := by simp [cacheSet]
    simp only [cachePrune, h1]
    rw [if_neg (not_lt.mpr (by linarith))]

/-- C4 witness: a key recorded at time 100 is suppressed at 101 and
accepted (with a refreshed stamp) at 103. -/
theorem is_debounced_window_spec_witness :
    ((is_debounced (fun k => if k = "a" then some (100 : ℚ) else none)
        "a" 101).1 = true) ∧
    ((is_debounced (fun k => if k = "a" then some (100 : ℚ) else none)
        "a" 103).1 = false) ∧
    ((is_debounced (fun k => if k = "a" then some (100 : ℚ) else none)
        "a" 103).2 "a" = some 103) := by
  have h1 := is_debounced_window_spec
    (fun k => if k = "a" then some (100 : ℚ) else none) "a" 100 101 (by simp)
  have h2 := is_debounced_window_spec
    (fun k => if k = "a" then some (100 : ℚ) else none) "a" 100 103 (by simp)
  exact ⟨h1.1 (by norm_num), (h2.2 (by norm_num)).1, (h2.2 (by norm_num)).2⟩

/-- C5 counterexample: on a suppressed check the cache is not pruned at
all.  With the key `b` recorded at time 0 and `a` at 100, the check of
`a` at time 101 is suppressed and leaves `b`'s entry in place even though
it is older than the 60-second horizon (`0 < 101 - 60`). -/
theorem is_debounced_no_prune_on_suppress :
    ((is_debounced
        (fun k => if k = "b" then some 0
          else if k = "a" then some (100 : ℚ) else none) "a" 101).2 "b" =
      some 0) ∧
    ((0 : ℚ) < 101 - 60) := by
  constructor
  · have hsup :
        is_debounced
          (fun k => if k = "b" then some 0
            else if k = "a" then some (100 : ℚ) else none) "a" 101 =
          (true, fun k => if k = "b" then some 0
            else if k = "a" then some (100 : ℚ) else none) := by
      simp [is_debounced, DEBOUNCE_SECONDS]
      norm_num
    rw [hsup]
    rfl
  · norm_num

/-- C5 (amended): stale entries (older than 60 seconds before the current
time) are removed on every check that accepts its event; a suppressed
check leaves the cache unchanged. -/
theorem is_debounced_prune_on_accept (c : DebCache) (path : String)
    (now : ℚ) :
    ((is_debounced c path now).1 = false →
      ∀ k v, (is_debounced c path now).2 k = some v → ¬v < now - 60) ∧
    ((is_debounced c path now).1 = true →
      (is_debounced c path now).2 = c) := by
  by_cases hc : now - (c path).getD 0 < DEBOUNCE_SECONDS
  case pos =>
    have hsup : is_debounced c path now = (true, c) := by
      simp [is_debounced, hc]
    rw [hsup]
    exact ⟨by simp, fun _ => rfl⟩
  case neg =>
    have hacc : is_debounced c path now =
        (false, cachePrune (cacheSet c path now) (now - 60)) := by
      simp [is_debounced, hc]
    rw [hacc]
    refine ⟨?_, by simp⟩
    intro _ k v hv
    simp only [cachePrune, cacheSet] at hv
    by_cases hk : k = path
    · rw [if_pos hk] at hv
      dsimp only at hv
      by_cases hcut : now < now - 60
      · rw [if_pos hcut] at hv; exact absurd hv (by simp)
      · rw [if_neg hcut] at hv
        injection hv with hv
        intro h2
        exact hcut (by linarith)
    · rw [if_neg hk] at hv
      cases hck : c k with
      | none => rw [hck] at hv; exact absurd hv (by simp)
      | some w =>
          rw [hck] at hv
          dsimp only at hv
          by_cases hcut : w < now - 60
          · rw [if_pos hcut] at hv; exact absurd hv (by simp)
          · rw [if_neg hcut] at hv
            injection hv with hv
            intro h2
            exact hcut (by linarith)

/-- C5 (amended) witness: an accepting check at time 100 on an empty-key
cache yields a post-state whose every entry is within the horizon. -/
theorem is_debounced_prune_on_accept_witness :
    ¬(100 : ℚ) < 100 - 60 := by
  have h := (is_debounced_prune_on_accept (fun _ => none) "x" 100).1
  exact h (by norm_num [is_debounced, DEBOUNCE_SECONDS]) "x" 100
    (by norm_num [is_debounced, DEBOUNCE_SECONDS, cachePrune, cacheSet])

/-- C9 counterexample: invoked on a path with no `.git` directory, the
commit collector's `run` prints to stderr and returns normally, so `main`
finishes with exit code 0 — not the claimed exit code 1 (it does perform
no writes). -/
theorem git_commit_nonrepo_exit_counterexample :
    git_commit_main "/tmp/norepo" ⟨false, none, none, false, false⟩ =
      (0, []) ∧ (0 : ℕ) ≠ 1 := by
  exact ⟨rfl, by decide⟩

/-- C9 (amended): for every input path whose repository lacks a `.git`
directory, the commit collector performs no writes and exits with code 0
(a clean early return, not an error exit). -/
theorem git_commit_nonrepo_clean (repoPath : String) (env : GitEnv)
    (h : env.hasGitDir = false) :
    git_commit_main repoPath env = (0, []) := by
  simp [git_commit_main, git_commit_run, h]

/-- C9 (amended) witness: a non-repository path in an otherwise healthy
environment (readable commit, files, existing database). -/
theorem git_commit_nonrepo_clean_witness :
    git_commit_main "/work/docs"
      ⟨false, some ⟨"h", "h7", "subj", "au", "ts"⟩, some ["a.txt"], true,
        false⟩ = (0, []) :=
  git_commit_nonrepo_clean "/work/docs" _ rfl

/-- C10: the window poller's non-work denylist is matched as a
case-insensitive substring of the application name or of the full window
title, so any window whose title merely contains a denylist word is
dropped (`get_active_window_info` returns `none`) and the poll writes no
`window_focus` row; in particular a VSCode window titled
`settings.py - myproj - Visual Studio Code` is dropped because the title
contains `settings`. -/
theorem window_denylist_substring_skip :
    (∀ app title w, w ∈ NON_WORK_APPS →
        (strContains (lowerStr (stripStr app)) w = true ∨
          strContains (lowerStr (stripStr title)) w = true) →
        get_active_window_info app title = none ∧
        ∀ lastKey,
          (poll_once_row (get_active_window_info app title) lastKey).1 =
            none) ∧
    get_active_window_info "Code"
      "settings.py - myproj - Visual Studio Code" = none := by
  constructor
  · intro app title w hw hmatch
    have hnone : get_active_window_info app title = none := by
      unfold get_active_window_info
      dsimp only
      have hany :
          (NON_WORK_APPS.any fun w2 =>
              strContains (lowerStr (stripStr app)) w2 ||
                strContains (lowerStr (stripStr title)) w2) = true :=
        List.any_eq_true.mpr
          ⟨w, hw, by rcases hmatch with h | h <;> simp [h]⟩
      by_cases hempty : stripStr title = "" ∧ stripStr app = ""
      · rw [if_pos hempty]
      · rw [if_neg hempty, if_pos hany]
    refine ⟨hnone, fun lastKey => ?_⟩
    rw [hnone]
    rfl
  · decide

/-- C10 witness: a different editor title containing the denylist word
`settings` is dropped and produces no row. -/
theorem window_denylist_substring_skip_witness :
    get_active_window_info "Code"
        "app_settings.py - proj - Visual Studio Code" = none ∧
    (poll_once_row
        (get_active_window_info "Code"
          "app_settings.py - proj - Visual Studio Code") "").1 = none := by
  have h := window_denylist_substring_skip.1 "Code"
    "app_settings.py - proj - Visual Studio Code" "settings" (by decide)
    (Or.inr (by decide))
  exact ⟨h.1, h.2 ""⟩

/-! ## Helper lemmas for the browser sync -/

theorem mem_runEntries {hist : List HistEntry} {st : ℚ} {hours : ℤ}
    {now : ℚ} {e : HistEntry} :
    e ∈ runEntries hist st hours now ↔
      e ∈ hist ∧ unix_to_chrome_ts (gval st hours now) ≤ e.chromeTs ∧
        0 < e.chromeTs ∧ (0 < st → st < entryUnix e) := by
  unfold runEntries get_chrome_history gval
  by_cases hst : 0 < st
  · rw [if_pos hst]
    simp only [List.mem_filter, Bool.and_eq_true, decide_eq_true_eq]
    constructor
    · rintro ⟨⟨hh, hcut, hpos⟩, hlt⟩
      exact ⟨hh, hcut, hpos, fun _ => hlt⟩
    · rintro ⟨hh, hcut, hpos, hlt⟩
      exact ⟨⟨hh, hcut, hpos⟩, hlt hst⟩
  · rw [if_neg hst]
    simp only [List.mem_filter, Bool.and_eq_true, decide_eq_true_eq]
    constructor
    · rintro ⟨hh, hcut, hpos⟩
      exact ⟨hh, hcut, hpos, fun h => absurd h hst⟩
    · rintro ⟨hh, hcut, hpos, _⟩
      exact ⟨hh, hcut, hpos⟩

theorem entryUnix_lt_iff {a b : HistEntry} :
    entryUnix a < entryUnix b ↔ a.chromeTs < b.chromeTs := by
  unfold entryUnix chrome_ts_to_unix
  rw [div_lt_div_iff_of_pos_right (by norm_num : (0 : ℚ) < 1000000),
    sub_lt_sub_iff_right, Int.cast_lt]

theorem entryUnix_pos {e : HistEntry}
    (h : CHROME_EPOCH_OFFSET_US < e.chromeTs) : 0 < entryUnix e := by
  unfold entryUnix chrome_ts_to_unix
  apply div_pos _ (by norm_num : (0 : ℚ) < 1000000)
  rw [sub_pos]
  exact_mod_cast h

theorem entryUnix_mul_add (e : HistEntry) :
    entryUnix e * 1000000 + (CHROME_EPOCH_OFFSET_US : ℚ) = (e.chromeTs : ℚ) := by
  unfold entryUnix chrome_ts_to_unix
  field_simp

theorem unix_to_chrome_le_of_lt {g : ℚ} {e : HistEntry}
    (h : g < entryUnix e) : unix_to_chrome_ts g ≤ e.chromeTs := by
  unfold unix_to_chrome_ts
  apply pyInt_le_of_lt
  rw [← entryUnix_mul_add e]
  have := mul_lt_mul_of_pos_right h (by norm_num : (0 : ℚ) < 1000000)
  linarith

theorem unix_to_chrome_mono {g1 g2 : ℚ} (h : g1 ≤ g2) :
    unix_to_chrome_ts g1 ≤ unix_to_chrome_ts g2 := by
  unfold unix_to_chrome_ts
  apply pyInt_mono
  have := mul_le_mul_of_nonneg_right h (by norm_num : (0 : ℚ) ≤ 1000000)
  linarith

theorem gval_le_of_cursor_ge {st : ℚ} {hours : ℤ} {now : ℚ}
    (h : now - (hours : ℚ) * 3600 ≤ st) : gval st hours now ≤ st := by
  unfold gval effectiveHours
  rw [max_eq_left h]
  by_cases h0 : 0 ≤ (now - st) / 3600
  · have h1 : (now - st) / 3600 < (pyInt ((now - st) / 3600) : ℚ) + 1 := by
      rw [pyInt, if_pos h0]
      exact_mod_cast Int.lt_floor_add_one ((now - st) / 3600)
    have h2 : ((pyInt ((now - st) / 3600) + 1 : ℤ) : ℚ) ≤
        ((max 1 (pyInt ((now - st) / 3600) + 1) : ℤ) : ℚ) := by
      exact_mod_cast le_max_right (1 : ℤ) (pyInt ((now - st) / 3600) + 1)
    have h3 : now - st < ((pyInt ((now - st) / 3600) + 1 : ℤ) : ℚ) * 3600 := by
      have := mul_lt_mul_of_pos_right h1 (by norm_num : (0 : ℚ) < 3600)
      push_cast at this ⊢
      linarith [this]
    have h4 := mul_le_mul_of_nonneg_right h2 (by norm_num : (0 : ℚ) ≤ 3600)
    linarith
  · have hlt : now < st := by
      by_contra hcon
      exact h0 (div_nonneg (by linarith [not_lt.mp hcon]) (by norm_num))
    have h2 : ((1 : ℤ) : ℚ) ≤
        ((max 1 (pyInt ((now - st) / 3600) + 1) : ℤ) : ℚ) := by
      exact_mod_cast le_max_left (1 : ℤ) (pyInt ((now - st) / 3600) + 1)
    have h4 := mul_le_mul_of_nonneg_right h2 (by norm_num : (0 : ℚ) ≤ 3600)
    linarith

theorem gval_eq_of_cursor_le {st : ℚ} {hours : ℤ} {now : ℚ}
    (h : st ≤ now - (hours : ℚ) * 3600) :
    gval st hours now = now - ((max 1 (hours + 1) : ℤ) : ℚ) * 3600 := by
  unfold gval effectiveHours
  rw [max_eq_right h]
  have harg : (now - (now - (hours : ℚ) * 3600)) / 3600 = ((hours : ℤ) : ℚ) := by
    field_simp
  rw [harg, pyInt_intCast]

theorem sync_to_db_mem_db {r : BrowserRow} :
    ∀ (entries : List HistEntry) (db : List BrowserRow),
      r ∈ db → r ∈ (sync_to_db entries db).2 := by
  intro entries
  induction entries with
  | nil => intro db h; exact h
  | cons e rest ih =>
      intro db h
      unfold sync_to_db
      by_cases hk : rowKey e ∈ db
      · rw [if_pos hk]; exact ih db h
      · rw [if_neg hk]
        exact ih (db ++ [rowKey e]) (List.mem_append_left _ h)

theorem sync_to_db_mem_keys :
    ∀ (entries : List HistEntry) (db : List BrowserRow) (e : HistEntry),
      e ∈ entries → rowKey e ∈ (sync_to_db entries db).2 := by
  intro entries
  induction entries with
  | nil => intro db e h; simp at h
  | cons e0 rest ih =>
      intro db e h
      unfold sync_to_db
      rcases List.mem_cons.mp h with he | he
      · subst he
        by_cases hk : rowKey e ∈ db
        · rw [if_pos hk]; exact sync_to_db_mem_db rest db hk
        · rw [if_neg hk]
          exact sync_to_db_mem_db rest (db ++ [rowKey e])
            (List.mem_append_right _ (List.mem_singleton.mpr rfl))
      · by_cases hk : rowKey e0 ∈ db
        · rw [if_pos hk]; exact ih db e he
        · rw [if_neg hk]; exact ih (db ++ [rowKey e0]) e he

theorem sync_to_db_all_dup :
    ∀ (entries : List HistEntry) (db : List BrowserRow),
      (∀ e ∈ entries, rowKey e ∈ db) → sync_to_db entries db = (0, db) := by
  intro entries
  induction entries with
  | nil => intro db _; rfl
  | cons e rest ih =>
      intro db h
      unfold sync_to_db
      rw [if_pos (h e (List.mem_cons_self e rest))]
      exact ih db (fun e2 he2 => h e2 (List.mem_cons_of_mem e he2))

theorem foldl_max_le_self : ∀ (xs : List ℚ) (a : ℚ), a ≤ xs.foldl max a := by
  intro xs
  induction xs with
  | nil => intro a; exact le_refl a
  | cons y ys ih =>
      intro a
      exact le_trans (le_max_left a y) (ih (max a y))

theorem mem_le_foldl_max :
    ∀ (xs : List ℚ) (a x : ℚ), x ∈ xs → x ≤ xs.foldl max a := by
  intro xs
  induction xs with
  | nil => intro a x h; simp at h
  | cons y ys ih =>
      intro a x h
      rcases List.mem_cons.mp h with hx | hx
      · subst hx
        exact le_trans (le_max_right a x) (foldl_max_le_self ys (max a x))
      · exact ih (max a y) x hx

theorem foldl_max_mem :
    ∀ (xs : List ℚ) (a : ℚ), xs.foldl max a = a ∨ xs.foldl max a ∈ xs := by
  intro xs
  induction xs with
  | nil => intro a; exact Or.inl rfl
  | cons y ys ih =>
      intro a
      rcases ih (max a y) with h | h
      · rcases max_choice a y with hm | hm
        · exact Or.inl (by rw [List.foldl_cons, h, hm])
        · exact Or.inr (by rw [List.foldl_cons, h, hm]; exact
            List.mem_cons_self y ys)
      · exact Or.inr (List.mem_cons_of_mem y h)

theorem le_qMax {l : List ℚ} {x : ℚ} (h : x ∈ l) : x ≤ qMax l := by
  cases l with
  | nil => simp at h
  | cons y ys =>
      unfold qMax
      rcases List.mem_cons.mp h with hx | hx
      · subst hx; exact foldl_max_le_self ys x
      · exact mem_le_foldl_max ys y x hx

theorem qMax_mem {l : List ℚ} (h : l ≠ []) : qMax l ∈ l := by
  cases l with
  | nil => exact absurd rfl h
  | cons y ys =>
      show ys.foldl max y ∈ y :: ys
      rcases foldl_max_mem ys y with h1 | h1
      · rw [h1]; exact List.mem_cons_self y ys
      · exact List.mem_cons_of_mem y h1

/-- When both cycles run with the same cursor, the second cycle's window
reaches no further back than the first's (the cycle-local `gval` lower
edge is monotone in the clock once the cursor and hours are fixed). -/
theorem runEntries_subset_same_cursor (hist : List HistEntry)
    (st : ℚ) (hours : ℤ) (now1 now2 : ℚ)
    (hwin : (hours : ℚ) * 3600 ≤ now1) (hnow : now1 ≤ now2) :
    ∀ e ∈ runEntries hist st hours now2, e ∈ runEntries hist st hours now1 := by
  intro e he
  rw [mem_runEntries] at he
  obtain ⟨hh, hcut2, hpos, hfil⟩ := he
  rw [mem_runEntries]
  by_cases hcase : st ≤ now1 - (hours : ℚ) * 3600
  · have h1 := gval_eq_of_cursor_le hcase
    have hcase2 : st ≤ now2 - (hours : ℚ) * 3600 := by linarith
    have h2 := gval_eq_of_cursor_le hcase2
    refine ⟨hh, ?_, hpos, hfil⟩
    have hg : gval st hours now1 ≤ gval st hours now2 := by
      rw [h1, h2]; linarith
    exact le_trans (unix_to_chrome_mono hg) hcut2
  · push_neg at hcase
    have hstpos : 0 < st := lt_of_le_of_lt (by linarith) hcase
    have htime : st < entryUnix e := hfil hstpos
    have hg : gval st hours now1 ≤ st := gval_le_of_cursor_ge hcase.le
    refine ⟨hh, ?_, hpos, hfil⟩
    exact unix_to_chrome_le_of_lt (lt_of_le_of_lt hg htime)

/-- When the first cycle advanced the cursor to the newest fetched visit
time, every entry surviving the second cycle's filters already survived
the first cycle's. -/
theorem runEntries_subset_advanced (hist : List HistEntry)
    (st0 : ℚ) (hours : ℤ) (now1 now2 : ℚ)
    (hhist : ∀ e ∈ hist, CHROME_EPOCH_OFFSET_US < e.chromeTs)
    (hne : runEntries hist st0 hours now1 ≠ []) :
    ∀ e ∈ runEntries hist
        (qMax ((runEntries hist st0 hours now1).map entryUnix)) hours now2,
      e ∈ runEntries hist st0 hours now1 := by
  intro e he
  have hMmem : qMax ((runEntries hist st0 hours now1).map entryUnix) ∈
      (runEntries hist st0 hours now1).map entryUnix :=
    qMax_mem (by simpa using hne)
  obtain ⟨e1, he1, hMe⟩ := List.mem_map.mp hMmem
  have he1' := mem_runEntries.mp he1
  obtain ⟨he1h, he1cut, he1pos, he1fil⟩ := he1'
  have hMpos : 0 < qMax ((runEntries hist st0 hours now1).map entryUnix) := by
    rw [← hMe]
    exact entryUnix_pos (hhist e1 he1h)
  rw [mem_runEntries] at he
  obtain ⟨hh, hcut2, hpos, hfil⟩ := he
  have htime := hfil hMpos
  rw [← hMe] at htime
  rw [mem_runEntries]
  refine ⟨hh, ?_, hpos, ?_⟩
  · exact le_trans he1cut (le_of_lt (entryUnix_lt_iff.mp htime))
  · intro hst0pos
    exact lt_trans (he1fil hst0pos) htime

/-- C7: incremental browser sync is idempotent.  For any fixed browser
history (no new visits between runs), a non-negative persisted cursor, a
clock at or after `hours*3600` that does not run backwards, and history
entries with post-1970 visit times, a second `sync_since_last` cycle run
after a first one inserts zero rows. -/
theorem browser_sync_idempotent (hist : List HistEntry)
    (db0 : List BrowserRow) (st0 now1 now2 : ℚ) (hours : ℤ)
    (hwin : (hours : ℚ) * 3600 ≤ now1) (hnow : now1 ≤ now2)
    (hhist : ∀ e ∈ hist, CHROME_EPOCH_OFFSET_US < e.chromeTs) :
    (sync_since_last hist
        (sync_since_last hist st0 db0 hours now1).lastSync
        (sync_since_last hist st0 db0 hours now1).db hours now2).count =
      0 := by
  by_cases hemp : runEntries hist st0 hours now1 = []
  · have hr1 : sync_since_last hist st0 db0 hours now1 = ⟨0, st0, db0⟩ := by
      rw [sync_since_last, hemp, if_pos rfl]
    rw [hr1]
    show (sync_since_last hist st0 db0 hours now2).count = 0
    have hempty2 : runEntries hist st0 hours now2 = [] := by
      cases hx : runEntries hist st0 hours now2 with
      | nil => rfl
      | cons a l =>
          exfalso
          have hmem : a ∈ runEntries hist st0 hours now2 := by
            rw [hx]; exact List.mem_cons_self a l
          have hsub := runEntries_subset_same_cursor hist st0 hours now1 now2
            hwin hnow a hmem
          rw [hemp] at hsub
          simp at hsub
    rw [sync_since_last, hempty2, if_pos rfl]
  · have hr1 : sync_since_last hist st0 db0 hours now1 =
        ⟨(sync_to_db (runEntries hist st0 hours now1) db0).1,
          if 0 < (sync_to_db (runEntries hist st0 hours now1) db0).1 then
            qMax ((runEntries hist st0 hours now1).map entryUnix)
          else st0,
          (sync_to_db (runEntries hist st0 hours now1) db0).2⟩ := by
      rw [sync_since_last, if_neg hemp]
    rw [hr1]
    show (sync_since_last hist
        (if 0 < (sync_to_db (runEntries hist st0 hours now1) db0).1 then
            qMax ((runEntries hist st0 hours now1).map entryUnix)
          else st0)
        (sync_to_db (runEntries hist st0 hours now1) db0).2 hours
        now2).count = 0
    have hsubset : ∀ e ∈ runEntries hist
        (if 0 < (sync_to_db (runEntries hist st0 hours now1) db0).1 then
            qMax ((runEntries hist st0 hours now1).map entryUnix)
          else st0) hours now2,
        e ∈ runEntries hist st0 hours now1 := by
      by_cases hc :
          0 < (sync_to_db (runEntries hist st0 hours now1) db0).1
      · rw [if_pos hc]
        exact runEntries_subset_advanced hist st0 hours now1 now2 hhist hemp
      · rw [if_neg hc]
        exact runEntries_subset_same_cursor hist st0 hours now1 now2 hwin hnow
    by_cases hemp2 : runEntries hist
        (if 0 < (sync_to_db (runEntries hist st0 hours now1) db0).1 then
            qMax ((runEntries hist st0 hours now1).map entryUnix)
          else st0) hours now2 = []
    · rw [sync_since_last, hemp2, if_pos rfl]
    · have hall : ∀ e ∈ runEntries hist
          (if 0 < (sync_to_db (runEntries hist st0 hours now1) db0).1 then
              qMax ((runEntries hist st0 hours now1).map entryUnix)
            else st0) hours now2,
          rowKey e ∈ (sync_to_db (runEntries hist st0 hours now1) db0).2 :=
        fun e he => sync_to_db_mem_keys _ _ e (hsubset e he)
      have hdup := sync_to_db_all_dup _ _ hall
      rw [sync_since_last, if_neg hemp2]
      simp [hdup]

/-- C7 witness: Scenario D with `T0 = 1000000` seconds.  The cursor sits
at `T0`, two visits exist at `T0+600` and `T0+1200` (Chrome-epoch
microsecond stamps); the first cycle (clock `T0+1500`) inserts 2 rows and
advances the cursor to `T0+1200`; the second cycle (clock `T0+1800`)
inserts 0 rows — the zero-count conclusion instantiates the idempotence
theorem at this input. -/
theorem browser_sync_idempotent_witness :
    sync_since_last
        [⟨"u1", 11645474200000000⟩, ⟨"u2", 11645474800000000⟩]
        1000000 [] 1 1001500 =
      ⟨2, 1001200, [⟨1000600, "u1"⟩, ⟨1001200, "u2"⟩]⟩ ∧
    (sync_since_last
        [⟨"u1", 11645474200000000⟩, ⟨"u2", 11645474800000000⟩]
        (sync_since_last
          [⟨"u1", 11645474200000000⟩, ⟨"u2", 11645474800000000⟩]
          1000000 [] 1 1001500).lastSync
        (sync_since_last
          [⟨"u1", 11645474200000000⟩, ⟨"u2", 11645474800000000⟩]
          1000000 [] 1 1001500).db 1 1001800).count = 0 := by
  constructor
  · have hre : runEntries
        [⟨"u1", 11645474200000000⟩, ⟨"u2", 11645474800000000⟩]
        1000000 1 1001500 =
        [⟨"u1", 11645474200000000⟩, ⟨"u2", 11645474800000000⟩] := by
      norm_num [runEntries, effectiveHours, get_chrome_history,
        unix_to_chrome_ts, pyInt, CHROME_EPOCH_OFFSET_US, max_def,
        entryUnix, chrome_ts_to_unix]
    rw [sync_since_last, hre, if_neg (by simp)]
    norm_num [sync_to_db, rowKey, entryUnix, chrome_ts_to_unix,
      CHROME_EPOCH_OFFSET_US, qMax, max_def]
  · exact browser_sync_idempotent
      [⟨"u1", 11645474200000000⟩, ⟨"u2", 11645474800000000⟩] [] 1000000
      1001500 1001800 1 (by norm_num) (by norm_num)
      (by
        intro e he
        simp only [List.mem_cons, List.not_mem_nil, or_false] at he
        rcases he with h | h <;> (rw [h]; decide))

/-- C8: the sync cursor can advance after a failed, rolled-back batch.
With the cursor at `T0 = 1000000`, two new visits in the window, an empty
activity table, and the second `INSERT` raising `sqlite3.Error` (so the
connection context manager rolls the whole transaction back), the cycle
still reports `inserted = 1`; `sync_since_last` therefore persists the
cursor at `T0+1200` while the table is left empty — contradicting the
claim (and the source's own contracts) that the cursor moves only after a
successful, fully-committed batch insert. -/
theorem sync_cursor_advances_after_rollback :
    sync_since_last_faulty
        [⟨"u1", 11645474200000000⟩, ⟨"u2", 11645474800000000⟩]
        1000000 [] 1 1001500 (some 1) = ⟨1, 1001200, []⟩ ∧
    (1001200 : ℚ) ≠ 1000000 := by
  constructor
  · have hre : runEntries
        [⟨"u1", 11645474200000000⟩, ⟨"u2", 11645474800000000⟩]
        1000000 1 1001500 =
        [⟨"u1", 11645474200000000⟩, ⟨"u2", 11645474800000000⟩] := by
      norm_num [runEntries, effectiveHours, get_chrome_history,
        unix_to_chrome_ts, pyInt, CHROME_EPOCH_OFFSET_US, max_def,
        entryUnix, chrome_ts_to_unix]
    rw [sync_since_last_faulty, hre, if_neg (by simp)]
    norm_num [sync_to_db_faulty, syncInsertLoop, rowKey, entryUnix,
      chrome_ts_to_unix, CHROME_EPOCH_OFFSET_US, qMax, max_def]
  · norm_num

end DayTracker
